import Mathlib

/-!
Verification of the logging module `src/util/log.c`.

The C code is shallowly embedded: C strings (`const char*`) become
`List Char` (NUL-terminated on the C side; the terminator is implicit here
and the embedded comparison loop treats the end of the list as the
terminating byte, exactly as the C loop reads the `'\0'` byte).  Bytes
(`uint8_t`) become `Nat` reduced modulo 256 at every read.  The output
written to the destination stream is modelled as the `List Char` of all
characters printed; "lines" are counted by counting newline characters.
The environment (`getenv`) is passed explicitly as an `Option (List Char)`
parameter, and `fopen` success is an oracle `List Char → Bool`.
-/

namespace Log

/-- The newline character. -/
def nl : Char := Char.ofNat 10

/-- Shorthand for `s.toList`, used to write C string literals. -/
def str (s : String) : List Char := s.toList

/-- A C string has no interior NUL byte. -/
def noNul (s : List Char) : Prop := ∀ c ∈ s, c.toNat ≠ 0

instance (s : List Char) : Decidable (noNul s) := by
  unfold noNul; exact List.decidableBAll _ s

/-- The C-locale `tolower` on a byte: only `'A'..'Z'` (65..90) are
mapped down by 32, every other byte is returned unchanged.  This embeds the
`tolower((unsigned char)*string)` calls of `case_insensitive_strncmp`. -/
def lowerB (b : Nat) : Nat := if 65 ≤ b ∧ b ≤ 90 then b + 32 else b

/-- The byte a C string pointer currently points at: the first character,
or the terminating NUL (0) when the list is exhausted. -/
def headByte : List Char → Nat
  | [] => 0
  | c :: _ => c.toNat

/-- A whole string lowered to its `tolower`ed byte sequence.  Two C strings
compare equal case-insensitively iff their `lowList`s are equal. -/
def lowList (s : List Char) : List Nat := s.map (fun c => lowerB c.toNat)

/-- The `do`/`while` loop of `case_insensitive_strncmp` (log.c lines
83-90).  The fuel is the counter `n`: each iteration compares the bytes
both pointers point at (`result = tolower(*string1) - tolower(*string2)`),
breaks with `result` when it is nonzero, and otherwise continues while
`*string1 != '\0' && *string2 != '\0' && --n`. -/
def ci_loop : Nat → List Char → List Char → Int
  | 0, _, _ => 0
  | n + 1, s1, s2 =>
    let r : Int := (lowerB (headByte s1) : Int) - (lowerB (headByte s2) : Int)
    if r = 0 then
      if headByte s1 = 0 ∨ headByte s2 = 0 ∨ n = 0 then 0
      else ci_loop n s1.tail s2.tail
    else r

/-- Embeds `case_insensitive_strncmp` (log.c lines 62-91).  The NULL-pointer
cases cannot arise in this embedding (a `List Char` always denotes a valid
string), and the identical-pointer shortcut returns 0 exactly as the loop
would, so only the `n == 0` shortcut and the loop are modelled. -/
def case_insensitive_strncmp (s1 s2 : List Char) (n : Nat) : Int :=
  if n = 0 then 0 else ci_loop n s1 s2

/-- The level-name table `log_strings` (log.c lines 27-35).  The index of
an entry is its numeric `log_level`: none=0, (unused)=1, ERROR=2,
WARNING=3, info=4, debug=5, trace=6. -/
def log_strings : List (List Char) :=
  [str "none", str "(unused)", str "ERROR", str "WARNING", str "info", str "debug", str "trace"]

/-- The scan of `log_stringlevel` (log.c lines 236-246): the first table
entry `e` with `case_insensitive_strncmp(e, n, strlen(e)) == 0` gives the
level; `LOGLEVEL_UNDEFINED` is modelled as `none`. -/
def log_stringlevelAux : Nat → List (List Char) → List Char → Option Nat
  | _, [], _ => none
  | i, e :: rest, n =>
    if case_insensitive_strncmp e n e.length = 0 then some i
    else log_stringlevelAux (i + 1) rest n

def log_stringlevel (n : List Char) : Option Nat := log_stringlevelAux 0 log_strings n

/-- The indices of all `'+'` characters of the configuration string, in
increasing order: exactly the pointers visited by the
`while ((i = strchr(i, '+')) != NULL)` loop of `getLogLevel`
(log.c line 256), as positions relative to the start of the string. -/
def plusPositionsAux : List Char → Nat → List Nat
  | [], _ => []
  | c :: rest, k =>
    if c = '+' then k :: plusPositionsAux rest (k + 1) else plusPositionsAux rest (k + 1)

/-- The match condition of `getLogLevel` at a `'+'` found at index `j`
(log.c lines 257-260): either the three characters right before the `'+'`
are (case-insensitively) `"all"` and at least three characters precede it
(`envlevel <= i - strlen("all")`), or the `strlen(module)` characters right
before the `'+'` are (case-insensitively) the module name and at least
`strlen(module)` characters precede it. -/
def entryMatches (s module : List Char) (j : Nat) : Bool :=
  (decide (3 ≤ j) && decide (case_insensitive_strncmp (s.drop (j - 3)) (str "all") 3 = 0)) ||
  (decide (module.length ≤ j) &&
    decide (case_insensitive_strncmp (s.drop (j - module.length)) module module.length = 0))

/-- The body of the scan loop of `getLogLevel` (log.c lines 256-266): on a
match, the level parsed from the text after the `'+'` replaces the running
level unless it is `LOGLEVEL_UNDEFINED`. -/
def applyEntry (s module : List Char) (loglevel : Nat) (j : Nat) : Nat :=
  if entryMatches s module j then
    match log_stringlevel (s.drop (j + 1)) with
    | some tmp => tmp
    | none => loglevel
  else loglevel

/-- Embeds `getLogLevel` (log.c lines 248-268), with the `getenv("TSS2_LOG")`
result passed explicitly. -/
def getLogLevel (envlevel : Option (List Char)) (module : List Char) (logdefault : Nat) : Nat :=
  match envlevel with
  | none => logdefault
  | some s => (plusPositionsAux s 0).foldl (applyEntry s module) logdefault

/-- The configuration string of claim C3. -/
def cfgWX : List Char := str "all+WARNING,moduleX+TRACE"

/-- One configuration entry `,name+level` as rendered into the
configuration string (the leading comma separates it from the previous
entry). -/
def renderEntry (e : List Char × List Char) : List Char := ',' :: (e.1 ++ '+' :: e.2)

/-- A sequence of configuration entries rendered into a configuration
string fragment. -/
def renderPost : List (List Char × List Char) → List Char
  | [] => []
  | e :: rest => renderEntry e ++ renderPost rest

/-- A well-formed trailing entry that cannot capture module `M`: NUL-free
name and level, neither containing `'+'`, with a name that is neither a
case-insensitive suffix match for `M` nor one for the wildcard `all`. -/
def entryOk (M : List Char) (e : List Char × List Char) : Prop :=
  noNul e.1 ∧ noNul e.2 ∧ '+' ∉ e.1 ∧ '+' ∉ e.2 ∧
  ¬ (M.length ≤ e.1.length ∧ lowList (e.1.drop (e.1.length - M.length)) = lowList M) ∧
  ¬ (3 ≤ e.1.length ∧ lowList (e.1.drop (e.1.length - 3)) = lowList (str "all"))

instance (M : List Char) (e : List Char × List Char) : Decidable (entryOk M e) := by
  unfold entryOk
  infer_instance

/-- One lowercase hexadecimal (or decimal) digit as printed by
`sprintf`/`printf`: `0..9` then `a..f`. -/
def hexDigit (n : Nat) : Char := if n < 10 then Char.ofNat (48 + n) else Char.ofNat (87 + n)

/-- The digits of `n` in base 16, most significant first, with explicit
fuel (the number itself) so the definition is structural and computable by
the kernel; the fuel never runs out because `n / 16 < n`. -/
def hexDigitsF : Nat → Nat → List Char
  | 0, n => [hexDigit (n % 16)]
  | fuel + 1, n => if n < 16 then [hexDigit n] else hexDigitsF fuel (n / 16) ++ [hexDigit (n % 16)]

def hexDigits (n : Nat) : List Char := hexDigitsF n n

/-- Printf `%0wx`: zero-padded lowercase hexadecimal of width at least `w`. -/
def hexPad (w n : Nat) : List Char :=
  List.replicate (w - (hexDigits n).length) '0' ++ hexDigits n

/-- The digits of `n` in base 10, most significant first (same fuel
pattern as `hexDigitsF`). -/
def decDigitsF : Nat → Nat → List Char
  | 0, n => [hexDigit (n % 10)]
  | fuel + 1, n => if n < 10 then [hexDigit n] else decDigitsF fuel (n / 10) ++ [hexDigit (n % 10)]

def decDigits (n : Nat) : List Char := decDigitsF n n

/-- Printf `%d` of an `int`. -/
def intDec (i : Int) : List Char :=
  if i < 0 then '-' :: decDigits (-i).toNat else decDigits i.toNat

/-- Reading `blob[k]`: the value of a `uint8_t`, hence below 256. -/
def byteAt (b : List Nat) (k : Nat) : Nat := (b.getD k 0) % 256

/-- The ASCII rendering of one dumped byte (log.c lines 187-194):
`isgraph` characters (0x21..0x7E in the C locale) are printed as
themselves, everything else as `'.'`. -/
def dumpChar (v : Nat) : Char := if 33 ≤ v ∧ v ≤ 126 then Char.ofNat v else '.'

/-- The `cnt` consecutive blob bytes starting at offset `base`. -/
def lineBytes (b : List Nat) (base cnt : Nat) : List Nat :=
  (List.range cnt).map (fun y => byteAt b (base + y))

/-- One line of the hex dump exactly as flushed by
`fprintf(logfile, "%s\n", buffer)` (log.c lines 162-204): the 4-digit
offset and `": "` (6 chars), one `%02x` pair per byte, two spaces, then
right-padding up to column `width * 2 + 8 = 40`, then the ASCII column. -/
def dumpLine (base : Nat) (bytes : List Nat) : List Char :=
  hexPad 4 base ++ str ": " ++ bytes.flatMap (hexPad 2) ++ str "  " ++
  List.replicate (16 * 2 + 8 - (8 + 2 * bytes.length)) ' ' ++ bytes.map dumpChar

/-- The dump loop of `doLogBlob`: a line is flushed exactly when
`i % 16 == 0 && i > 1` or `i == size`, so each line covers the bytes from
the previous flush offset (`off2`, a multiple of 16) up to there: chunks
of 16 bytes with a final partial chunk.  `fuel = rem` suffices because
`rem` decreases by 16 each step. -/
def hexDumpGoF : Nat → List Nat → Nat → Nat → List (List Char)
  | 0, _, _, _ => []
  | fuel + 1, b, rem, base =>
    if rem = 0 then []
    else dumpLine base (lineBytes b base (min 16 rem)) ::
      hexDumpGoF fuel b (rem - 16) (base + 16)

/-- All hex-dump lines emitted for a blob of `size` bytes. -/
def hexDumpLines (b : List Nat) (size : Nat) : List (List Char) :=
  hexDumpGoF size b size 0

/-- The `"%s:%s:%s:%d:%s() "` prefix written by `doLog` (log.c lines
222-224); `snprintf` into `char prefix[1024]` truncates it to 1023
characters. -/
def logHeader (loglevel : Nat) (module file : List Char) (line : Int) (func : List Char) :
    List Char :=
  ((log_strings.getD loglevel []) ++ str ":" ++ module ++ str ":" ++ file ++ str ":" ++
    intDec line ++ str ":" ++ func ++ str "() ").take 1023

/-- Embeds `doLog` (log.c lines 208-234): resolve the cached level if still
`LOGLEVEL_UNDEFINED` (modelled as `none`), gate on `loglevel > *status`,
then write prefix, formatted message (`msg` stands for the result of the
`vfprintf` formatting) and `" \n"`.  Returns the updated `*status` and the
characters written to the destination. -/
def doLog (loglevel : Nat) (module : List Char) (logdefault : Nat) (status : Option Nat)
    (env : Option (List Char)) (file func : List Char) (line : Int) (msg : List Char) :
    Option Nat × List Char :=
  let st := match status with
    | none => getLogLevel env module logdefault
    | some s => s
  if loglevel > st then (some st, [])
  else (some st, logHeader loglevel module file line func ++ msg ++ [' ', nl])

/-- The constant `LOG_MSG_MAX`: `vsnprintf` into `char msg[LOG_MSG_MAX + 1]` keeps at
most 255 characters of the formatted message. -/
def LOG_MSG_MAX : Nat := 255

/-- Embeds `doLogBlob` (log.c lines 129-206): gate, truncate the formatted
message, then either one `"... (size=N): (null)"` line for a NULL blob, or
the `"... (size=N):"` line followed by the hex dump.  `size_t` is printed
with `%zi`; for the sizes considered here that is the decimal digits. -/
def doLogBlob (loglevel : Nat) (module : List Char) (logdefault : Nat) (status : Option Nat)
    (env : Option (List Char)) (file func : List Char) (line : Int)
    (blob : Option (List Nat)) (size : Nat) (msg : List Char) : Option Nat × List Char :=
  let st := match status with
    | none => getLogLevel env module logdefault
    | some s => s
  if loglevel > st then (some st, [])
  else
    let msgT := msg.take LOG_MSG_MAX
    match blob with
    | none =>
      doLog loglevel module logdefault (some st) env file func line
        (msgT ++ str " (size=" ++ decDigits size ++ str "): (null)")
    | some b =>
      let r := doLog loglevel module logdefault (some st) env file func line
        (msgT ++ str " (size=" ++ decDigits size ++ str "):")
      (r.1, r.2 ++ (hexDumpLines b size).flatMap (fun l => l ++ [nl]))

/-- The number of lines in an output fragment: its newline count. -/
def countNL (l : List Char) : Nat := l.count nl

/-- The destination stream resolved by `getLogFile`. -/
inductive LogDest where
  | stdErr : LogDest
  | stdOut : LogDest
  | fileHandle : List Char → LogDest
deriving DecidableEq

/-- Embeds `getLogFile` (log.c lines 96-127, `LOG_FILE_ENABLED` branch).  The
`static FILE* file` cache is the explicit `cached` argument, the
`getenv("TSS2_LOGFILE")` result is `env`, `fopen(envpath, "a+")` success
is the oracle `canOpen`, and `strerror(errno)` is `errMsg`.  Returns the
stream used, the new cache, and the diagnostic characters printed to
standard error. -/
def getLogFile (env : Option (List Char)) (canOpen : List Char → Bool) (errMsg : List Char)
    (cached : Option LogDest) : LogDest × Option LogDest × List Char :=
  match cached with
  | some f => (f, some f, [])
  | none =>
    match env with
    | none => (LogDest.stdErr, some LogDest.stdErr, [])
    | some envpath =>
      if case_insensitive_strncmp envpath (str "stderr") 7 = 0 then
        (LogDest.stdErr, some LogDest.stdErr, [])
      else if envpath = str "-" ∨ case_insensitive_strncmp envpath (str "stdout") 7 = 0 then
        (LogDest.stdOut, some LogDest.stdOut, [])
      else if canOpen envpath then
        (LogDest.fileHandle envpath, some (LogDest.fileHandle envpath), [])
      else
        (LogDest.stdErr, some LogDest.stdErr,
          str "Failed to open logging file " ++ envpath ++ str ": " ++ errMsg ++ [nl])

theorem lowerB_eq_zero {b : Nat} : lowerB b = 0 ↔ b = 0 := by
  unfold lowerB; split <;> omega

theorem lowerB_eq_comma {b : Nat} : lowerB b = 44 ↔ b = 44 := by
  unfold lowerB; split <;> omega

/-- Helper: an element read off a list by index is a member. -/
theorem mem_of_getElemOpt {α : Type} {l : List α} {n : Nat} {a : α}
    (h : l[n]? = some a) : a ∈ l := by
  have hn : n < l.length := by
    by_contra hc
    simp [List.getElem?_eq_none (Nat.le_of_not_lt hc)] at h
  rw [List.getElem?_eq_getElem hn] at h
  cases h
  exact List.getElem_mem hn

/-- Helper: equal `lowList`s agree (lowered) at every index. -/
theorem lowEq_at {l1 l2 : List Char} {k : Nat} {a b : Char}
    (h : lowList l1 = lowList l2) (ha : l1[k]? = some a) (hb : l2[k]? = some b) :
    lowerB a.toNat = lowerB b.toNat := by
  have h1 : (lowList l1)[k]? = (lowList l2)[k]? := by rw [h]
  unfold lowList at h1
  rw [List.getElem?_map, List.getElem?_map, ha, hb] at h1
  simpa using h1

/-- The bounded reading of `case_insensitive_strncmp`: when `n` does not
exceed either string's length the comparison never reaches a terminator,
so it returns 0 exactly when the first `n` characters agree up to case. -/
theorem ci_strncmp_eq_zero_iff_take {s1 s2 : List Char} {n : Nat}
    (h1 : noNul s1) (h2 : noNul s2) (hl1 : n ≤ s1.length) (hl2 : n ≤ s2.length) :
    case_insensitive_strncmp s1 s2 n = 0 ↔ lowList (s1.take n) = lowList (s2.take n) := by
  induction n generalizing s1 s2 with
  | zero => simp [case_insensitive_strncmp, lowList]
  | succ m ih =>
    match s1, s2 with
    | [], _ => simp at hl1
    | _, [] => simp at hl2
    | a :: t1, b :: t2 =>
      have ha : a.toNat ≠ 0 := h1 a (by simp)
      have hb : b.toNat ≠ 0 := h2 b (by simp)
      have ht1 : noNul t1 := fun c hc => h1 c (by simp [hc])
      have ht2 : noNul t2 := fun c hc => h2 c (by simp [hc])
      unfold case_insensitive_strncmp ci_loop
      simp only [Nat.succ_ne_zero, if_false]
      by_cases hr : (lowerB (headByte (a :: t1)) : Int) - (lowerB (headByte (b :: t2)) : Int) = 0
      · have hab : lowerB a.toNat = lowerB b.toNat := by
          have := sub_eq_zero.mp hr
          exact_mod_cast this
        rw [if_pos hr]
        cases m with
        | zero =>
          simp only [or_true, if_true]
          simp [lowList, hab]
        | succ k =>
          have hno : ¬ (headByte (a :: t1) = 0 ∨ headByte (b :: t2) = 0 ∨ k + 1 = 0) := by
            simp [headByte, ha, hb]
          rw [if_neg hno]
          simp only [List.tail_cons]
          have hl1' : k + 1 ≤ t1.length := by simpa using hl1
          have hl2' : k + 1 ≤ t2.length := by simpa using hl2
          have := ih ht1 ht2 hl1' hl2'
          unfold case_insensitive_strncmp at this
          simp only [Nat.succ_ne_zero, if_false] at this
          rw [this]
          simp [lowList, hab]
      · rw [if_neg hr]
        constructor
        · intro h; exact absurd h hr
        · intro h
          exfalso
          apply hr
          have hab : lowerB a.toNat = lowerB b.toNat := by
            simp [lowList] at h
            exact h.1
          simp [headByte, hab]

/-- The terminator reading of `case_insensitive_strncmp`: when `n` is
strictly larger than the second string's length (as in the `strlen`-based
calls with `n = strlen(table_entry)` replaced by `7 > 6` in `getLogFile`),
the loop runs into a terminator before `n` is exhausted, so it returns 0
exactly when the two whole strings agree up to case. -/
theorem ci_strncmp_eq_zero_iff_full {s1 s2 : List Char} {n : Nat}
    (h1 : noNul s1) (h2 : noNul s2) (hn : s2.length < n) :
    case_insensitive_strncmp s1 s2 n = 0 ↔ lowList s1 = lowList s2 := by
  induction n generalizing s1 s2 with
  | zero => omega
  | succ m ih =>
    match s1, s2 with
    | [], [] =>
      unfold case_insensitive_strncmp ci_loop
      simp [headByte, lowList]
    | a :: t1, [] =>
      have ha : a.toNat ≠ 0 := h1 a (by simp)
      have hlow : lowerB a.toNat ≠ 0 := fun hc => ha (lowerB_eq_zero.mp hc)
      unfold case_insensitive_strncmp ci_loop
      have hr : (lowerB (headByte (a :: t1)) : Int) - (lowerB (headByte ([] : List Char)) : Int) ≠ 0 := by
        have h0 : lowerB (headByte ([] : List Char)) = 0 := by decide
        rw [h0]
        simp only [headByte, Nat.cast_zero, sub_zero]
        exact_mod_cast hlow
      simp only [Nat.succ_ne_zero, if_false, if_neg hr]
      constructor
      · intro h; exact absurd h hr
      · intro h; simp [lowList] at h
    | [], b :: t2 =>
      have hb : b.toNat ≠ 0 := h2 b (by simp)
      have hlow : lowerB b.toNat ≠ 0 := fun hc => hb (lowerB_eq_zero.mp hc)
      unfold case_insensitive_strncmp ci_loop
      have hr : (lowerB (headByte ([] : List Char)) : Int) - (lowerB (headByte (b :: t2)) : Int) ≠ 0 := by
        have h0 : lowerB (headByte ([] : List Char)) = 0 := by decide
        rw [h0]
        simp only [headByte, Nat.cast_zero, zero_sub, neg_ne_zero]
        exact_mod_cast hlow
      simp only [Nat.succ_ne_zero, if_false, if_neg hr]
      constructor
      · intro h; exact absurd h hr
      · intro h; simp [lowList] at h
    | a :: t1, b :: t2 =>
      have ha : a.toNat ≠ 0 := h1 a (by simp)
      have hb : b.toNat ≠ 0 := h2 b (by simp)
      have ht1 : noNul t1 := fun c hc => h1 c (by simp [hc])
      have ht2 : noNul t2 := fun c hc => h2 c (by simp [hc])
      have hm : t2.length < m := by simpa using hn
      unfold case_insensitive_strncmp ci_loop
      simp only [Nat.succ_ne_zero, if_false]
      by_cases hr : (lowerB (headByte (a :: t1)) : Int) - (lowerB (headByte (b :: t2)) : Int) = 0
      · have hab : lowerB a.toNat = lowerB b.toNat := by
          have := sub_eq_zero.mp hr
          exact_mod_cast this
        rw [if_pos hr]
        have hm0 : m ≠ 0 := by omega
        have hno : ¬ (headByte (a :: t1) = 0 ∨ headByte (b :: t2) = 0 ∨ m = 0) := by
          simp [headByte, ha, hb, hm0]
        rw [if_neg hno]
        simp only [List.tail_cons]
        have := ih ht1 ht2 hm
        unfold case_insensitive_strncmp at this
        rw [if_neg hm0] at this
        rw [this]
        simp [lowList, hab]
      · rw [if_neg hr]
        constructor
        · intro h; exact absurd h hr
        · intro h
          exfalso
          apply hr
          have hab : lowerB a.toNat = lowerB b.toNat := by
            simp [lowList] at h
            exact h.1
          simp [headByte, hab]

/-- A mismatch already at the first byte makes the comparison nonzero. -/
theorem ci_strncmp_ne_zero_of_head {s1 s2 : List Char} {n : Nat}
    (hn : n ≠ 0) (h : lowerB (headByte s1) ≠ lowerB (headByte s2)) :
    case_insensitive_strncmp s1 s2 n ≠ 0 := by
  unfold case_insensitive_strncmp
  rw [if_neg hn]
  match n, hn with
  | m + 1, _ =>
    unfold ci_loop
    have hr : (lowerB (headByte s1) : Int) - (lowerB (headByte s2) : Int) ≠ 0 := by
      intro hc
      exact h (by exact_mod_cast sub_eq_zero.mp hc)
    rw [if_neg hr]
    exact hr

theorem plusPositionsAux_append (a b : List Char) (k : Nat) :
    plusPositionsAux (a ++ b) k = plusPositionsAux a k ++ plusPositionsAux b (k + a.length) := by
  induction a generalizing k with
  | nil => simp [plusPositionsAux]
  | cons c rest ih =>
    simp only [List.cons_append, plusPositionsAux, List.append_eq]
    by_cases hc : c = '+'
    · rw [if_pos hc, if_pos hc, ih (k + 1)]
      simp [Nat.add_assoc, Nat.add_comm 1 rest.length]
    · rw [if_neg hc, if_neg hc, ih (k + 1)]
      simp [Nat.add_assoc, Nat.add_comm 1 rest.length]

theorem plusPositionsAux_no_plus {a : List Char} (h : '+' ∉ a) (k : Nat) :
    plusPositionsAux a k = [] := by
  induction a generalizing k with
  | nil => rfl
  | cons c rest ih =>
    have hc : c ≠ '+' := fun hc => h (by simp [hc])
    simp only [plusPositionsAux, if_neg hc]
    exact ih (fun hm => h (by simp [hm])) (k + 1)

/-- Entries that never match leave the running level untouched. -/
theorem foldl_applyEntry_no_match {s module : List Char} {P : List Nat}
    (h : ∀ j ∈ P, entryMatches s module j = false) (lvl : Nat) :
    P.foldl (applyEntry s module) lvl = lvl := by
  induction P generalizing lvl with
  | nil => rfl
  | cons j rest ih =>
    simp only [List.foldl_cons]
    rw [applyEntry, h j (by simp), if_neg (by simp)]
    exact ih (fun x hx => h x (by simp [hx])) lvl

/-- Helper: `noNul` distributes over append. -/
theorem noNul_append {a b : List Char} (ha : noNul a) (hb : noNul b) : noNul (a ++ b) := by
  intro c hc
  rcases List.mem_append.mp hc with h | h
  · exact ha c h
  · exact hb c h

/-- The last entry of a configuration ending in `...m+TRACE` sets level 6
for module `m`, whatever the running level was when the scan reaches it. -/
theorem applyEntry_final_trace (m A : List Char) (hm : noNul m) (v : Nat) :
    applyEntry (A ++ m ++ ('+' :: str "TRACE")) m v ((A ++ m).length) = 6 := by
  have hs : A ++ m ++ ('+' :: str "TRACE") = (A ++ m) ++ ('+' :: str "TRACE") := by
    rw [List.append_assoc]
  have hwin : (A ++ m ++ ('+' :: str "TRACE")).drop ((A ++ m).length - m.length) =
      m ++ ('+' :: str "TRACE") := by
    rw [List.append_assoc A m ('+' :: str "TRACE")]
    apply List.drop_left'
    simp
  have hcmp : case_insensitive_strncmp
      ((A ++ m ++ ('+' :: str "TRACE")).drop ((A ++ m).length - m.length)) m m.length = 0 := by
    rw [hwin]
    have hnn : noNul (m ++ ('+' :: str "TRACE")) := noNul_append hm (by decide)
    rw [ci_strncmp_eq_zero_iff_take hnn hm (by simp) (by simp)]
    rw [List.take_left' rfl, List.take_length]
  have hmatch : entryMatches (A ++ m ++ ('+' :: str "TRACE")) m ((A ++ m).length) = true := by
    unfold entryMatches
    have h1 : decide (m.length ≤ (A ++ m).length) = true := by
      rw [decide_eq_true_eq]; simp
    rw [h1, decide_eq_true_eq.mpr hcmp]
    simp
  have htok : (A ++ m ++ ('+' :: str "TRACE")).drop ((A ++ m).length + 1) = str "TRACE" := by
    rw [hs]
    exact List.drop_append 1
  rw [applyEntry, hmatch, if_pos rfl, htok]
  rw [show log_stringlevel (str "TRACE") = some 6 from by decide]

/-- C5: later entries for the same module override earlier ones.  For every
NUL-free module name `m`, the configuration `m+ERROR,m+TRACE` resolves `m`
to TRACE (6): the scan visits the two `'+'` signs left to right and the
later matching entry's level wins. -/
theorem getLogLevel_last_match_wins (m : List Char) (d : Nat) (hm : noNul m) :
    getLogLevel (some (m ++ str "+ERROR," ++ m ++ str "+TRACE")) m d = 6 := by
  have hml : m ++ str "+ERROR," ++ m ++ str "+TRACE" =
      (m ++ str "+ERROR,") ++ m ++ ('+' :: str "TRACE") := by
    rw [show str "+TRACE" = '+' :: str "TRACE" from rfl]
  rw [getLogLevel, hml]
  have hassoc : (m ++ str "+ERROR,") ++ m ++ ('+' :: str "TRACE") =
      ((m ++ str "+ERROR,") ++ m) ++ ('+' :: str "TRACE") := by
    rw [List.append_assoc]
  have hpp : ∀ k, plusPositionsAux ('+' :: str "TRACE") k = [k] := by
    intro k
    rw [show ('+' :: str "TRACE") = ['+'] ++ str "TRACE" from rfl, plusPositionsAux_append]
    rw [plusPositionsAux_no_plus (show '+' ∉ str "TRACE" by decide)]
    simp [plusPositionsAux]
  conv_lhs => rw [hassoc, plusPositionsAux_append, hpp]
  rw [List.foldl_append, List.foldl_cons, List.foldl_nil, Nat.zero_add]
  rw [← hassoc]
  exact applyEntry_final_trace m (m ++ str "+ERROR,") hm _

/-- Witness for C5 at the concrete module `net`. -/
theorem getLogLevel_last_match_wins_witness :
    getLogLevel (some (str "net" ++ str "+ERROR," ++ str "net" ++ str "+TRACE")) (str "net") 2 = 6 :=
  getLogLevel_last_match_wins (str "net") 2 (by decide)

/-- C6: the default level is returned when the environment variable is
absent, and when no entry of the configuration matches the module; an
entry whose level token is unknown (`log_stringlevel` returns
`LOGLEVEL_UNDEFINED`) leaves the running level unchanged. -/
theorem getLogLevel_default_retained (M s s2 : List Char) (d lvl j2 : Nat)
    (hnom : ∀ j ∈ plusPositionsAux s 0, entryMatches s M j = false)
    (hunk : log_stringlevel (s2.drop (j2 + 1)) = none) :
    getLogLevel none M d = d ∧
    getLogLevel (some s) M d = d ∧
    applyEntry s2 M lvl j2 = lvl := by
  refine ⟨rfl, ?_, ?_⟩
  · rw [getLogLevel]
    exact foldl_applyEntry_no_match hnom d
  · rw [applyEntry, hunk]
    split <;> rfl

/-- Witness for C6: `foo+debug` has no entry matching module `xyz`, and a
`BOGUS` level token does not override. -/
theorem getLogLevel_default_retained_witness :
    getLogLevel none (str "xyz") 4 = 4 ∧
    getLogLevel (some (str "foo+debug")) (str "xyz") 4 = 4 ∧
    applyEntry (str "m+BOGUS") (str "m") 4 1 = 4 :=
  getLogLevel_default_retained (str "xyz") (str "foo+debug") (str "m+BOGUS") 4 4 1
    (by decide) (by decide)

/-- Skipping a non-matching entry of the level-name table. -/
theorem log_stringlevelAux_skip {e tok : List Char} (i : Nat) (es : List (List Char))
    (h : case_insensitive_strncmp e tok e.length ≠ 0) :
    log_stringlevelAux i (e :: es) tok = log_stringlevelAux (i + 1) es tok := by
  show (if case_insensitive_strncmp e tok e.length = 0 then some i
    else log_stringlevelAux (i + 1) es tok) = log_stringlevelAux (i + 1) es tok
  rw [if_neg h]

/-- The scan of `log_stringlevel` returns the index of the first matching
entry: if entry `p` matches and every earlier entry has a lowered first
byte different from the token's, the scan returns `i0 + p`. -/
theorem log_stringlevelAux_scan (es : List (List Char)) (i0 p : Nat) (tok : List Char)
    (hne : ∀ e ∈ es, e ≠ [])
    (hph : ∀ q, q < p → lowerB (headByte (es.getD q [])) ≠ lowerB (headByte tok))
    (hp : p < es.length)
    (hcmp : case_insensitive_strncmp (es.getD p []) tok (es.getD p []).length = 0) :
    log_stringlevelAux i0 es tok = some (i0 + p) := by
  induction es generalizing i0 p with
  | nil => simp at hp
  | cons e rest ih =>
    cases p with
    | zero =>
      unfold log_stringlevelAux
      rw [if_pos (by simpa using hcmp)]
      simp
    | succ q =>
      have hlen : e.length ≠ 0 := by
        have := hne e (by simp)
        intro hc
        exact this (List.eq_nil_of_length_eq_zero hc)
      have hskip : case_insensitive_strncmp e tok e.length ≠ 0 :=
        ci_strncmp_ne_zero_of_head hlen (by simpa using hph 0 (Nat.succ_pos q))
      rw [log_stringlevelAux_skip i0 rest hskip]
      have := ih (i0 + 1) q (fun x hx => hne x (by simp [hx]))
        (fun r hr => by simpa using hph (r + 1) (by omega))
        (by simpa using hp) (by simpa using hcmp)
      rw [this]
      congr 1
      omega

/-- C7: level-name matching is a bounded case-insensitive comparison over
the length of the table entry only, so any NUL-free token of which a table
entry is a case-insensitive prefix resolves to that entry's level; in
particular `debugger` resolves to `debug` (5). -/
theorem log_stringlevel_bounded_match (tok : List Char) (i : Nat) (hi : i < 7) (ht : noNul tok)
    (hp : lowList (tok.take (log_strings.getD i []).length) = lowList (log_strings.getD i [])) :
    log_stringlevel tok = some i ∧ log_stringlevel (str "debugger") = some 5 := by
  refine ⟨?_, by decide⟩
  have hn1 : 1 ≤ (log_strings.getD i []).length := by
    interval_cases i <;> decide
  have hlen : (log_strings.getD i []).length ≤ tok.length := by
    have := congrArg List.length hp
    simp only [lowList, List.length_map, List.length_take] at this
    omega
  have htpos : 0 < tok.length := by omega
  obtain ⟨c, rest, rfl⟩ : ∃ c rest, tok = c :: rest := by
    cases tok with
    | nil => simp at htpos
    | cons c rest => exact ⟨c, rest, rfl⟩
  obtain ⟨e0, er, hE⟩ : ∃ e0 er, log_strings.getD i [] = e0 :: er := by
    cases hE : log_strings.getD i [] with
    | nil => rw [hE] at hn1; simp at hn1
    | cons e0 er => exact ⟨e0, er, rfl⟩
  have hfirst : lowerB (headByte (c :: rest)) = lowerB (headByte (log_strings.getD i [])) := by
    have h0 := congrArg (fun l => l[0]?) hp
    rw [hE] at h0
    simp only [lowList, List.getElem?_map] at h0
    rw [List.getElem?_take_of_lt (by simp)] at h0
    simp only [List.getElem?_cons_zero, Option.map_some] at h0
    rw [hE]
    simp only [headByte]
    exact Option.some.inj h0
  have hd : ∀ q, q < 7 → q ≠ i →
      lowerB (headByte (log_strings.getD q [])) ≠ lowerB (headByte (log_strings.getD i [])) := by
    clear hp hfirst hE hlen
    interval_cases i <;> decide
  have hcmp : case_insensitive_strncmp (log_strings.getD i []) (c :: rest)
      (log_strings.getD i []).length = 0 := by
    have hnne : noNul (log_strings.getD i []) := by
      interval_cases i <;> decide
    rw [ci_strncmp_eq_zero_iff_take hnne ht (Nat.le_refl _) hlen]
    rw [List.take_length]
    exact hp.symm
  have := log_stringlevelAux_scan log_strings 0 i (c :: rest)
    (by decide)
    (fun q hq => by
      rw [hfirst]
      exact hd q (by omega) (by omega))
    (by simpa [log_strings] using hi)
    hcmp
  rw [log_stringlevel, this, Nat.zero_add]

/-- Witness for C7: the token `debugger` is accepted as level `debug`. -/
theorem log_stringlevel_bounded_match_witness :
    log_stringlevel (str "debugger") = some 5 ∧ log_stringlevel (str "debugger") = some 5 :=
  log_stringlevel_bounded_match (str "debugger") 5 (by omega) (by decide) (by decide)

/-- C10: an entry whose module text ends (case-insensitively) in `all`,
with at least three characters before the `'+'`, is the wildcard: the
entry applies identically to every module, and in particular the
configuration `install+trace` sets level TRACE (6) for every module. -/
theorem wildcard_matches_any_module (s m m2 : List Char) (lvl j : Nat)
    (hw : 3 ≤ j)
    (hcmp : case_insensitive_strncmp (s.drop (j - 3)) (str "all") 3 = 0) :
    applyEntry s m lvl j = applyEntry s m2 lvl j ∧
    (∀ md : List Char, ∀ dd : Nat, getLogLevel (some (str "install+trace")) md dd = 6) := by
  constructor
  · have hm : ∀ mm : List Char, entryMatches s mm j = true := by
      intro mm
      unfold entryMatches
      rw [decide_eq_true_eq.mpr hw, decide_eq_true_eq.mpr hcmp]
      simp
    rw [applyEntry, applyEntry, hm m, hm m2]
  · intro md dd
    rw [getLogLevel]
    rw [show plusPositionsAux (str "install+trace") 0 = [7] from by decide]
    rw [List.foldl_cons, List.foldl_nil]
    have hmk : entryMatches (str "install+trace") md 7 = true := by
      unfold entryMatches
      rw [decide_eq_true_eq.mpr (show (3 : Nat) ≤ 7 by omega)]
      rw [decide_eq_true_eq.mpr (show case_insensitive_strncmp
        ((str "install+trace").drop (7 - 3)) (str "all") 3 = 0 from by decide)]
      simp
    rw [applyEntry, hmk, if_pos rfl]
    rw [show log_stringlevel ((str "install+trace").drop (7 + 1)) = some 6 from by decide]

/-- Witness for C10 at the entry `xall+info` (j = 4) and at two concrete
modules for `install+trace`. -/
theorem wildcard_matches_any_module_witness :
    applyEntry (str "xall+info") (str "a") 0 4 = applyEntry (str "xall+info") (str "b") 0 4 ∧
    getLogLevel (some (str "install+trace")) (str "other") 2 = 6 :=
  ⟨(wildcard_matches_any_module (str "xall+info") (str "a") (str "b") 0 4
      (by omega) (by decide)).1,
   (wildcard_matches_any_module (str "xall+info") (str "a") (str "b") 0 4
      (by omega) (by decide)).2 (str "other") 2⟩

/-- C2 counterexample: the configuration `x+DEBUG,yx+TRACE` contains the
entry `x+DEBUG`, and `yx+TRACE` is an entry for the different module name
`yx`, yet module `x` resolves to TRACE (6), not DEBUG (5): the scan
compares only the `strlen("x")` characters before each `'+'`, so the later
entry for `yx` also matches `x` and overrides the level. -/
theorem debug_entry_overridden_by_suffix :
    getLogLevel (some (str "x+DEBUG,yx+TRACE")) (str "x") 3 = 6 ∧
    getLogLevel (some (str "x+DEBUG,yx+TRACE")) (str "x") 3 ≠ 5 ∧
    str "x" ≠ str "yx" := by decide

/-- C3 counterexample: with `all+WARNING,moduleX+TRACE`, the module `uleX`
is a module other than `moduleX` yet resolves to TRACE (6), not WARNING
(3), because `uleX` matches the last four characters before the second
`'+'`. -/
theorem other_module_resolves_trace :
    getLogLevel (some (str "all+WARNING,moduleX+TRACE")) (str "uleX") 2 = 6 ∧
    getLogLevel (some (str "all+WARNING,moduleX+TRACE")) (str "uleX") 2 ≠ 3 ∧
    str "uleX" ≠ str "moduleX" := by decide

theorem noNul_drop {s : List Char} (h : noNul s) (n : Nat) : noNul (s.drop n) :=
  fun c hc => h c (List.mem_of_mem_drop hc)

/-- How `cfgWX` resolves an arbitrary module `m`: the wildcard entry first
sets WARNING (3); the second entry (`'+'` at index 19) then sets TRACE (6)
exactly when the `m.length` characters ending at index 19 equal `m` up to
case — i.e. when `m` is a case-insensitive suffix of `all+WARNING,moduleX`. -/
theorem cfgWX_resolution (m : List Char) (hm : noNul m) (d : Nat) :
    getLogLevel (some cfgWX) m d =
      if m.length ≤ 19 ∧ lowList ((cfgWX.drop (19 - m.length)).take m.length) = lowList m
      then 6 else 3 := by
  have hcfg : noNul cfgWX := by decide
  rw [getLogLevel, show plusPositionsAux cfgWX 0 = [3, 19] from by decide]
  rw [List.foldl_cons, List.foldl_cons, List.foldl_nil]
  have h1 : applyEntry cfgWX m d 3 = 3 := by
    have hmk : entryMatches cfgWX m 3 = true := by
      unfold entryMatches
      rw [decide_eq_true_eq.mpr (show (3 : Nat) ≤ 3 by omega),
        decide_eq_true_eq.mpr (show case_insensitive_strncmp (cfgWX.drop (3 - 3))
          (str "all") 3 = 0 from by decide)]
      simp
    rw [applyEntry, hmk, if_pos rfl,
      show log_stringlevel (cfgWX.drop (3 + 1)) = some 3 from by decide]
  rw [h1]
  by_cases hc : m.length ≤ 19 ∧
      lowList ((cfgWX.drop (19 - m.length)).take m.length) = lowList m
  · rw [if_pos hc]
    have hl1 : m.length ≤ (cfgWX.drop (19 - m.length)).length := by
      rw [List.length_drop, show cfgWX.length = 25 from by decide]
      omega
    have hcmp : case_insensitive_strncmp (cfgWX.drop (19 - m.length)) m m.length = 0 := by
      rw [ci_strncmp_eq_zero_iff_take (noNul_drop hcfg _) hm hl1 (Nat.le_refl _)]
      rw [List.take_length]
      exact hc.2
    have hmk : entryMatches cfgWX m 19 = true := by
      unfold entryMatches
      rw [decide_eq_true_eq.mpr hc.1, decide_eq_true_eq.mpr hcmp]
      simp
    rw [applyEntry, hmk, if_pos rfl,
      show log_stringlevel (cfgWX.drop (19 + 1)) = some 6 from by decide]
  · rw [if_neg hc]
    have hmk : entryMatches cfgWX m 19 = false := by
      unfold entryMatches
      rw [show decide (case_insensitive_strncmp (cfgWX.drop (19 - 3)) (str "all") 3 = 0)
        = false from by decide]
      simp only [Bool.and_false, Bool.false_or]
      by_cases hle : m.length ≤ 19
      · have hl1 : m.length ≤ (cfgWX.drop (19 - m.length)).length := by
          rw [List.length_drop, show cfgWX.length = 25 from by decide]
          omega
        have hne : case_insensitive_strncmp (cfgWX.drop (19 - m.length)) m m.length ≠ 0 := by
          intro h0
          apply hc
          refine ⟨hle, ?_⟩
          have h2 := (ci_strncmp_eq_zero_iff_take (noNul_drop hcfg _) hm hl1
            (Nat.le_refl _)).mp h0
          rwa [List.take_length] at h2
        rw [show decide (case_insensitive_strncmp (cfgWX.drop (19 - m.length)) m m.length = 0)
          = false from by simp [hne]]
        simp
      · rw [show decide (m.length ≤ 19) = false from by simp [hle]]
        simp
    rw [applyEntry, hmk]
    simp

/-- C3 (amended): with `all+WARNING,moduleX+TRACE`, `moduleX` resolves to
TRACE (6); a module resolves to WARNING (3) exactly when its name is not a
case-insensitive suffix of the text `all+WARNING,moduleX` before the second
`'+'` (modules that are such a suffix, e.g. `uleX`, also resolve to TRACE). -/
theorem cfgWX_moduleX_trace_others_warning (m1 m2 : List Char) (d : Nat)
    (hm1 : noNul m1) (hm2 : noNul m2)
    (hs1 : m1.length ≤ 19 ∧
      lowList ((cfgWX.drop (19 - m1.length)).take m1.length) = lowList m1)
    (hs2 : ¬ (m2.length ≤ 19 ∧
      lowList ((cfgWX.drop (19 - m2.length)).take m2.length) = lowList m2)) :
    getLogLevel (some cfgWX) m1 d = 6 ∧
    getLogLevel (some cfgWX) m2 d = 3 ∧
    getLogLevel (some cfgWX) (str "moduleX") d = 6 := by
  refine ⟨?_, ?_, ?_⟩
  · rw [cfgWX_resolution m1 hm1 d, if_pos hs1]
  · rw [cfgWX_resolution m2 hm2 d, if_neg hs2]
  · rw [cfgWX_resolution (str "moduleX") (by decide) d, if_pos (by decide)]

/-- Witness for C3 (amended): `uleX` is a suffix match (TRACE), `other` is
not (WARNING), and `moduleX` gets TRACE. -/
theorem cfgWX_moduleX_trace_others_warning_witness :
    getLogLevel (some cfgWX) (str "uleX") 2 = 6 ∧
    getLogLevel (some cfgWX) (str "other") 2 = 3 ∧
    getLogLevel (some cfgWX) (str "moduleX") 2 = 6 :=
  cfgWX_moduleX_trace_others_warning (str "uleX") (str "other") 2
    (by decide) (by decide) (by decide) (by decide)

theorem noNul_cons {c : Char} {t : List Char} (hc : c.toNat ≠ 0) (ht : noNul t) :
    noNul (c :: t) := by
  intro x hx
  rcases List.mem_cons.mp hx with h | h
  · subst h; exact hc
  · exact ht x h

theorem noNul_renderPost (post : List (List Char × List Char))
    (h : ∀ e ∈ post, noNul e.1 ∧ noNul e.2) : noNul (renderPost post) := by
  induction post with
  | nil => intro c hc; simp [renderPost] at hc
  | cons e rest ih =>
    rw [renderPost]
    refine noNul_append ?_ (ih (fun x hx => h x (by simp [hx])))
    rw [renderEntry]
    refine noNul_cons (by decide) ?_
    exact noNul_append (h e (by simp)).1 (noNul_cons (by decide) (h e (by simp)).2)

/-- The `n` characters of `s` starting at index `t`, extracted when `s` is
presented as `P ++ (Y ++ Q)` with `P.length = t` and `Y.length = n`. -/
theorem window_eq (P Y Q : List Char) (t n : Nat) (ht : P.length = t) (hY : Y.length = n) :
    ((P ++ (Y ++ Q)).drop t).take n = Y := by
  rw [List.drop_left' ht, List.take_left' hY]

/-- A trailing entry `,name+level` whose name has neither `M` nor `all` as
a case-insensitive suffix does not match module `M`: both windows the scan
compares against end at the `'+'` and either lie inside `name` (excluded by
the suffix conditions) or cover the separating comma (which can match
neither `all` nor a comma-free `M`). -/
theorem entryMatches_false_mid (M A name C : List Char)
    (hnul : noNul (A ++ ',' :: (name ++ '+' :: C)))
    (hMn : noNul M) (hMc : ∀ c ∈ M, c.toNat ≠ 44)
    (hnm : ¬ (M.length ≤ name.length ∧
      lowList (name.drop (name.length - M.length)) = lowList M))
    (hna : ¬ (3 ≤ name.length ∧
      lowList (name.drop (name.length - 3)) = lowList (str "all"))) :
    entryMatches (A ++ ',' :: (name ++ '+' :: C)) M (A.length + 1 + name.length) = false := by
  have hslen : (A ++ ',' :: (name ++ '+' :: C)).length =
      A.length + 1 + name.length + 1 + C.length := by
    simp
    omega
  have hcomma : (A ++ ',' :: (name ++ '+' :: C))[A.length]? = some ',' := by
    rw [List.getElem?_append_right (Nat.le_refl A.length)]
    simp
  have hWild : (decide (3 ≤ A.length + 1 + name.length) &&
      decide (case_insensitive_strncmp
        ((A ++ ',' :: (name ++ '+' :: C)).drop (A.length + 1 + name.length - 3))
        (str "all") 3 = 0)) = false := by
    by_cases h3 : 3 ≤ A.length + 1 + name.length
    · have hci : case_insensitive_strncmp
          ((A ++ ',' :: (name ++ '+' :: C)).drop (A.length + 1 + name.length - 3))
          (str "all") 3 ≠ 0 := by
        intro h0
        have hdlen : 3 ≤ ((A ++ ',' :: (name ++ '+' :: C)).drop
            (A.length + 1 + name.length - 3)).length := by
          rw [List.length_drop, hslen]
          omega
        have hlow := (ci_strncmp_eq_zero_iff_take (noNul_drop hnul _) (by decide)
          hdlen (by decide)).mp h0
        rw [show (str "all").take 3 = str "all" from rfl] at hlow
        by_cases hn3 : 3 ≤ name.length
        · have hsplit : A ++ ',' :: (name ++ '+' :: C) =
              (A ++ ',' :: name.take (name.length - 3)) ++
                (name.drop (name.length - 3) ++ '+' :: C) := by
            conv_lhs => rw [← List.take_append_drop (name.length - 3) name]
            simp only [List.cons_append, List.append_assoc]
          rw [hsplit] at hlow
          rw [window_eq _ _ _ (A.length + 1 + name.length - 3) 3
            (by simp [List.length_take]; omega)
            (by rw [List.length_drop]; omega)] at hlow
          exact hna ⟨hn3, hlow⟩
        · have hk : 2 - name.length < 3 := by omega
          have hidx : A.length + 1 + name.length - 3 + (2 - name.length) = A.length := by
            omega
          have hW : (((A ++ ',' :: (name ++ '+' :: C)).drop
              (A.length + 1 + name.length - 3)).take 3)[2 - name.length]? = some ',' := by
            rw [List.getElem?_take_of_lt hk, List.getElem?_drop, hidx]
            exact hcomma
          obtain ⟨ak, hak⟩ : ∃ ak, (str "all")[2 - name.length]? = some ak := by
            have hkl : 2 - name.length < (str "all").length := by
              rw [show (str "all").length = 3 from rfl]
              omega
            rw [List.getElem?_eq_getElem hkl]
            exact ⟨_, rfl⟩
          have heq := lowEq_at hlow hW hak
          have hmem : ak ∈ str "all" := mem_of_getElemOpt hak
          have hno44 : ∀ c ∈ str "all", lowerB c.toNat ≠ 44 := by decide
          rw [show lowerB (',').toNat = 44 from by decide] at heq
          exact hno44 ak hmem heq.symm
      rw [decide_eq_false hci, Bool.and_false]
    · rw [decide_eq_false h3, Bool.false_and]
  have hMod : (decide (M.length ≤ A.length + 1 + name.length) &&
      decide (case_insensitive_strncmp
        ((A ++ ',' :: (name ++ '+' :: C)).drop (A.length + 1 + name.length - M.length))
        M M.length = 0)) = false := by
    by_cases hM : M.length ≤ A.length + 1 + name.length
    · have hci : case_insensitive_strncmp
          ((A ++ ',' :: (name ++ '+' :: C)).drop (A.length + 1 + name.length - M.length))
          M M.length ≠ 0 := by
        intro h0
        have hdlen : M.length ≤ ((A ++ ',' :: (name ++ '+' :: C)).drop
            (A.length + 1 + name.length - M.length)).length := by
          rw [List.length_drop, hslen]
          omega
        have hlow := (ci_strncmp_eq_zero_iff_take (noNul_drop hnul _) hMn
          hdlen (Nat.le_refl _)).mp h0
        rw [List.take_length] at hlow
        by_cases hnM : M.length ≤ name.length
        · have hsplit : A ++ ',' :: (name ++ '+' :: C) =
              (A ++ ',' :: name.take (name.length - M.length)) ++
                (name.drop (name.length - M.length) ++ '+' :: C) := by
            conv_lhs => rw [← List.take_append_drop (name.length - M.length) name]
            simp only [List.cons_append, List.append_assoc]
          rw [hsplit] at hlow
          rw [window_eq _ _ _ (A.length + 1 + name.length - M.length) M.length
            (by simp [List.length_take]; omega)
            (by rw [List.length_drop]; omega)] at hlow
          exact hnm ⟨hnM, hlow⟩
        · have hM1 : 1 ≤ M.length := by omega
          have hk : M.length - name.length - 1 < M.length := by omega
          have hidx : A.length + 1 + name.length - M.length +
              (M.length - name.length - 1) = A.length := by
            omega
          have hW : (((A ++ ',' :: (name ++ '+' :: C)).drop
              (A.length + 1 + name.length - M.length)).take
                M.length)[M.length - name.length - 1]? = some ',' := by
            rw [List.getElem?_take_of_lt hk, List.getElem?_drop, hidx]
            exact hcomma
          obtain ⟨mk, hmk⟩ : ∃ mk, M[M.length - name.length - 1]? = some mk := by
            rw [List.getElem?_eq_getElem hk]
            exact ⟨_, rfl⟩
          have heq := lowEq_at hlow hW hmk
          rw [show lowerB (',').toNat = 44 from by decide] at heq
          exact hMc mk (mem_of_getElemOpt hmk) (lowerB_eq_comma.mp heq.symm)
      rw [decide_eq_false hci, Bool.and_false]
    · rw [decide_eq_false hM, Bool.false_and]
  unfold entryMatches
  rw [hWild, hMod]
  rfl

theorem plusPositionsAux_cons_ne {c : Char} (hc : c ≠ '+') (t : List Char) (k : Nat) :
    plusPositionsAux (c :: t) k = plusPositionsAux t (k + 1) := by
  show (if c = '+' then k :: plusPositionsAux t (k + 1) else plusPositionsAux t (k + 1)) = _
  rw [if_neg hc]

theorem plusPositionsAux_cons_plus (t : List Char) (k : Nat) :
    plusPositionsAux ('+' :: t) k = k :: plusPositionsAux t (k + 1) := by
  show (if '+' = '+' then k :: plusPositionsAux t (k + 1) else plusPositionsAux t (k + 1)) = _
  rw [if_pos rfl]

/-- Scanning a rendered tail of `entryOk` entries never changes the running
level: none of their `'+'` signs passes the wildcard or the module check. -/
theorem foldl_applyEntry_post (M : List Char) (hMn : noNul M) (hMc : ∀ c ∈ M, c.toNat ≠ 44) :
    ∀ (post : List (List Char × List Char)) (A : List Char),
      noNul (A ++ renderPost post) →
      (∀ e ∈ post, entryOk M e) →
      ∀ lvl, (plusPositionsAux (renderPost post) A.length).foldl
          (applyEntry (A ++ renderPost post) M) lvl = lvl := by
  intro post
  induction post with
  | nil =>
    intro A hnul hok lvl
    rw [renderPost]
    simp [plusPositionsAux]
  | cons e rest ih =>
    intro A hnul hok lvl
    obtain ⟨name, lev⟩ := e
    have hok1 := hok (name, lev) (by simp)
    rw [entryOk] at hok1
    obtain ⟨hn1, hn2, hp1, hp2, hnm, hna⟩ := hok1
    have hre : renderPost ((name, lev) :: rest) =
        ',' :: (name ++ '+' :: (lev ++ renderPost rest)) := by
      rw [renderPost, renderEntry]
      simp [List.append_assoc]
    rw [hre] at hnul ⊢
    have hpos : plusPositionsAux (',' :: (name ++ '+' :: (lev ++ renderPost rest))) A.length =
        (A.length + 1 + name.length) ::
          plusPositionsAux (renderPost rest) (A.length + 1 + name.length + 1 + lev.length) := by
      rw [plusPositionsAux_cons_ne (by decide), plusPositionsAux_append,
        plusPositionsAux_no_plus hp1, plusPositionsAux_cons_plus, plusPositionsAux_append,
        plusPositionsAux_no_plus hp2]
      simp
    rw [hpos, List.foldl_cons]
    have hfalse := entryMatches_false_mid M A name (lev ++ renderPost rest)
      hnul hMn hMc hnm hna
    have happ : applyEntry (A ++ ',' :: (name ++ '+' :: (lev ++ renderPost rest))) M lvl
        (A.length + 1 + name.length) = lvl := by
      rw [applyEntry, hfalse]
      simp
    rw [happ]
    have hA2 : (A ++ renderEntry (name, lev)).length =
        A.length + 1 + name.length + 1 + lev.length := by
      rw [renderEntry]
      simp
      omega
    have hshape : A ++ ',' :: (name ++ '+' :: (lev ++ renderPost rest)) =
        (A ++ renderEntry (name, lev)) ++ renderPost rest := by
      rw [renderEntry]
      simp [List.append_assoc]
    rw [← hA2, hshape]
    rw [hshape] at hnul
    exact ih (A ++ renderEntry (name, lev)) hnul (fun x hx => hok x (by simp [hx])) lvl

/-- C2 (amended): a configuration `pre · M+DEBUG · post` resolves module
`M` (NUL- and comma-free) to DEBUG (5) for an arbitrary earlier part `pre`,
provided each later entry `,name+level` is well formed and its name has
neither `M` nor `all` as a case-insensitive suffix.  (As stated originally
the claim fails: a later entry for a module name ending in `M` — e.g.
`yx+TRACE` after `x+DEBUG` — also matches `M` and overrides the level.) -/
theorem getLogLevel_debug_with_safe_tail (M pre : List Char)
    (post : List (List Char × List Char)) (d : Nat)
    (hMn : noNul M) (hMc : ∀ c ∈ M, c.toNat ≠ 44) (hpre : noNul pre)
    (hpost : ∀ e ∈ post, entryOk M e) :
    getLogLevel (some (pre ++ M ++ str "+DEBUG" ++ renderPost post)) M d = 5 := by
  have hrp : noNul (renderPost post) := by
    apply noNul_renderPost
    intro e he
    have h := hpost e he
    rw [entryOk] at h
    exact ⟨h.1, h.2.1⟩
  have hDnn : noNul (str "DEBUG" ++ renderPost post) := noNul_append (by decide) hrp
  have hshape1 : pre ++ M ++ str "+DEBUG" ++ renderPost post =
      (pre ++ M) ++ ('+' :: (str "DEBUG" ++ renderPost post)) := by
    rw [show str "+DEBUG" = '+' :: str "DEBUG" from rfl]
    simp [List.append_assoc]
  rw [getLogLevel, hshape1]
  rw [plusPositionsAux_append (pre ++ M) ('+' :: (str "DEBUG" ++ renderPost post))]
  simp only [Nat.zero_add]
  rw [plusPositionsAux_cons_plus]
  rw [plusPositionsAux_append (str "DEBUG") (renderPost post)]
  rw [plusPositionsAux_no_plus (show '+' ∉ str "DEBUG" from by decide)]
  simp only [List.nil_append]
  rw [List.foldl_append, List.foldl_cons]
  have hmatch : entryMatches ((pre ++ M) ++ ('+' :: (str "DEBUG" ++ renderPost post))) M
      (pre ++ M).length = true := by
    unfold entryMatches
    have hwin : ((pre ++ M) ++ ('+' :: (str "DEBUG" ++ renderPost post))).drop
        ((pre ++ M).length - M.length) = M ++ ('+' :: (str "DEBUG" ++ renderPost post)) := by
      rw [List.append_assoc]
      apply List.drop_left'
      simp
    have hcmp : case_insensitive_strncmp
        (((pre ++ M) ++ ('+' :: (str "DEBUG" ++ renderPost post))).drop
          ((pre ++ M).length - M.length)) M M.length = 0 := by
      rw [hwin]
      have hnn : noNul (M ++ ('+' :: (str "DEBUG" ++ renderPost post))) :=
        noNul_append hMn (noNul_cons (by decide) hDnn)
      rw [ci_strncmp_eq_zero_iff_take hnn hMn (by simp) (Nat.le_refl _)]
      rw [List.take_left' rfl, List.take_length]
    rw [decide_eq_true_eq.mpr (show M.length ≤ (pre ++ M).length from by simp),
      decide_eq_true_eq.mpr hcmp]
    simp
  have happ : ∀ v, applyEntry ((pre ++ M) ++ ('+' :: (str "DEBUG" ++ renderPost post))) M v
      (pre ++ M).length = 5 := by
    intro v
    rw [applyEntry, hmatch, if_pos rfl]
    have htok : ((pre ++ M) ++ ('+' :: (str "DEBUG" ++ renderPost post))).drop
        ((pre ++ M).length + 1) = str "DEBUG" ++ renderPost post := by
      rw [List.drop_append 1]
      rfl
    rw [htok]
    have hlen5 : (str "debug").length ≤ (str "DEBUG" ++ renderPost post).length := by
      rw [List.length_append]
      rw [show (str "debug").length = 5 from rfl, show (str "DEBUG").length = 5 from rfl]
      omega
    have hcmp5 : case_insensitive_strncmp (log_strings.getD 5 [])
        (str "DEBUG" ++ renderPost post) (log_strings.getD 5 []).length = 0 := by
      rw [show log_strings.getD 5 [] = str "debug" from rfl]
      rw [ci_strncmp_eq_zero_iff_take (by decide) hDnn (Nat.le_refl _) hlen5]
      rw [List.take_length, show (str "debug").length = (str "DEBUG").length from rfl,
        List.take_left]
      decide
    have hscan := log_stringlevelAux_scan log_strings 0 5 (str "DEBUG" ++ renderPost post)
      (by decide)
      (fun q hq => by
        rw [show headByte (str "DEBUG" ++ renderPost post) = 68 from rfl]
        have hqq : ∀ q2, q2 < 5 →
            lowerB (headByte (log_strings.getD q2 [])) ≠ lowerB 68 := by decide
        exact hqq q hq)
      (by decide) hcmp5
    rw [log_stringlevel, hscan]
  rw [happ]
  have hidx : (pre ++ M).length + 1 + (str "DEBUG").length =
      ((pre ++ M) ++ ('+' :: str "DEBUG")).length := by
    simp only [List.length_append, List.length_cons]
    rw [show (str "DEBUG").length = 5 from rfl]
  rw [hidx]
  have hshape2 : (pre ++ M) ++ ('+' :: (str "DEBUG" ++ renderPost post)) =
      ((pre ++ M) ++ ('+' :: str "DEBUG")) ++ renderPost post := by
    simp [List.append_assoc]
  rw [hshape2]
  exact foldl_applyEntry_post M hMn hMc post ((pre ++ M) ++ ('+' :: str "DEBUG"))
    (noNul_append (noNul_append (noNul_append hpre hMn)
      (noNul_cons (by decide) (by decide))) hrp)
    hpost 5

/-- Witness for C2 (amended): `x+DEBUG,net+info` resolves `x` to DEBUG. -/
theorem getLogLevel_debug_with_safe_tail_witness :
    getLogLevel (some (([] : List Char) ++ str "x" ++ str "+DEBUG" ++
      renderPost [(str "net", str "info")])) (str "x") 3 = 5 :=
  getLogLevel_debug_with_safe_tail (str "x") [] [(str "net", str "info")] 3
    (by decide) (by decide) (by decide) (by decide)

theorem countNL_append (a b : List Char) : countNL (a ++ b) = countNL a + countNL b := by
  unfold countNL
  exact List.count_append nl a b

theorem countNL_eq_zero {l : List Char} (h : nl ∉ l) : countNL l = 0 := by
  unfold countNL
  exact List.count_eq_zero.mpr h

theorem hexDigit_ne_nl : ∀ k, k < 16 → hexDigit k ≠ nl := by decide

theorem nl_not_mem_hexDigitsF : ∀ fuel n, nl ∉ hexDigitsF fuel n := by
  intro fuel
  induction fuel with
  | zero =>
    intro n hmem
    rw [hexDigitsF, List.mem_singleton] at hmem
    exact hexDigit_ne_nl _ (Nat.mod_lt n (by omega)) hmem.symm
  | succ f ih =>
    intro n hmem
    rw [hexDigitsF] at hmem
    split at hmem
    · exact hexDigit_ne_nl n (by omega) (List.mem_singleton.mp hmem).symm
    · rcases List.mem_append.mp hmem with h | h
      · exact ih _ h
      · exact hexDigit_ne_nl _ (Nat.mod_lt n (by omega)) (List.mem_singleton.mp h).symm

theorem nl_not_mem_decDigitsF : ∀ fuel n, nl ∉ decDigitsF fuel n := by
  intro fuel
  induction fuel with
  | zero =>
    intro n hmem
    rw [decDigitsF, List.mem_singleton] at hmem
    exact hexDigit_ne_nl _ (by have := Nat.mod_lt n (show 0 < 10 by omega); omega) hmem.symm
  | succ f ih =>
    intro n hmem
    rw [decDigitsF] at hmem
    split at hmem
    · exact hexDigit_ne_nl n (by omega) (List.mem_singleton.mp hmem).symm
    · rcases List.mem_append.mp hmem with h | h
      · exact ih _ h
      · exact hexDigit_ne_nl _
          (by have := Nat.mod_lt n (show 0 < 10 by omega); omega)
          (List.mem_singleton.mp h).symm

theorem nl_not_mem_intDec (i : Int) : nl ∉ intDec i := by
  rw [intDec]
  split
  · intro hmem
    rcases List.mem_cons.mp hmem with h | h
    · exact absurd h (by decide)
    · exact nl_not_mem_decDigitsF _ _ h
  · exact nl_not_mem_decDigitsF _ _

theorem nl_not_mem_levelname : ∀ i : Nat, nl ∉ log_strings.getD i [] := by
  intro i
  by_cases h : i < 7
  · have hall : ∀ j, j < 7 → nl ∉ log_strings.getD j [] := by decide
    exact hall i h
  · rw [List.getD_eq_default]
    · simp
    · rw [show log_strings.length = 7 from rfl]
      omega

theorem countNL_logHeader (lv : Nat) (module file func : List Char) (line : Int)
    (hm : nl ∉ module) (hf : nl ∉ file) (hfn : nl ∉ func) :
    countNL (logHeader lv module file line func) = 0 := by
  apply countNL_eq_zero
  intro hmem
  have hmem2 := List.mem_of_mem_take hmem
  simp only [List.mem_append] at hmem2
  rcases hmem2 with ((((((((h | h) | h) | h) | h) | h) | h) | h) | h) | h
  · exact nl_not_mem_levelname lv h
  · exact absurd h (by decide)
  · exact hm h
  · exact absurd h (by decide)
  · exact hf h
  · exact absurd h (by decide)
  · exact nl_not_mem_intDec line h
  · exact absurd h (by decide)
  · exact hfn h
  · exact absurd h (by decide)

/-- The line emitted by an enabled `doLog` call. -/
theorem doLog_emits (lv st d : Nat) (env : Option (List Char))
    (module file func msg : List Char) (line : Int) (hle : lv ≤ st) :
    (doLog lv module d (some st) env file func line msg).2 =
      logHeader lv module file line func ++ msg ++ [' ', nl] := by
  rw [doLog]
  simp [Nat.not_lt.mpr hle]

theorem countNL_doLog_emitted (lv st d : Nat) (env : Option (List Char))
    (module file func msg : List Char) (line : Int) (hle : lv ≤ st)
    (hm : nl ∉ module) (hf : nl ∉ file) (hfn : nl ∉ func) (hmsg : nl ∉ msg) :
    countNL (doLog lv module d (some st) env file func line msg).2 = 1 := by
  rw [doLog_emits lv st d env module file func msg line hle]
  rw [countNL_append, countNL_append]
  rw [countNL_logHeader lv module file func line hm hf hfn, countNL_eq_zero hmsg]
  decide

theorem byteAt_lt (b : List Nat) (k : Nat) : byteAt b k < 256 :=
  Nat.mod_lt _ (by omega)

set_option maxRecDepth 4096 in
theorem dumpChar_ne_nl : ∀ v, v < 256 → dumpChar v ≠ nl := by decide

theorem lineBytes_lt (b : List Nat) (base cnt : Nat) : ∀ v ∈ lineBytes b base cnt, v < 256 := by
  intro v hv
  rw [lineBytes] at hv
  rcases List.mem_map.mp hv with ⟨y, _, rfl⟩
  exact byteAt_lt b _

theorem nl_not_mem_hexPad (w n : Nat) : nl ∉ hexPad w n := by
  intro hmem
  rcases List.mem_append.mp hmem with h | h
  · exact absurd (List.eq_of_mem_replicate h) (by decide)
  · exact nl_not_mem_hexDigitsF n n h

theorem nl_not_mem_dumpLine (base : Nat) (bytes : List Nat)
    (hb : ∀ v ∈ bytes, v < 256) : nl ∉ dumpLine base bytes := by
  rw [dumpLine]
  intro hmem
  simp only [List.mem_append] at hmem
  rcases hmem with ((((h | h) | h) | h) | h) | h
  · exact nl_not_mem_hexPad 4 base h
  · exact absurd h (by decide)
  · rcases List.mem_flatMap.mp h with ⟨v, hv, h2⟩
    exact nl_not_mem_hexPad 2 v h2
  · exact absurd h (by decide)
  · exact absurd (List.eq_of_mem_replicate h) (by decide)
  · rcases List.mem_map.mp h with ⟨v, hv, h2⟩
    exact dumpChar_ne_nl v (hb v hv) h2

theorem nl_not_mem_hexDumpGoF :
    ∀ fuel (b : List Nat) rem base, ∀ l ∈ hexDumpGoF fuel b rem base, nl ∉ l := by
  intro fuel
  induction fuel with
  | zero =>
    intro b rem base l hl
    simp [hexDumpGoF] at hl
  | succ f ih =>
    intro b rem base l hl
    rw [hexDumpGoF] at hl
    split at hl
    · simp at hl
    · rcases List.mem_cons.mp hl with h | h
      · subst h
        exact nl_not_mem_dumpLine _ _ (lineBytes_lt b base (min 16 rem))
      · exact ih b (rem - 16) (base + 16) l h

theorem length_hexDumpGoF :
    ∀ fuel (b : List Nat) rem base, rem ≤ fuel →
      (hexDumpGoF fuel b rem base).length = (rem + 15) / 16 := by
  intro fuel
  induction fuel with
  | zero =>
    intro b rem base h
    have : rem = 0 := by omega
    subst this
    rfl
  | succ f ih =>
    intro b rem base h
    rw [hexDumpGoF]
    by_cases h0 : rem = 0
    · subst h0
      simp
    · rw [if_neg h0]
      rw [List.length_cons, ih b (rem - 16) (base + 16) (by omega)]
      omega

theorem countNL_dump_output (lines : List (List Char)) (h : ∀ l ∈ lines, nl ∉ l) :
    countNL (lines.flatMap (fun l => l ++ [nl])) = lines.length := by
  induction lines with
  | nil => rfl
  | cons l rest ih =>
    rw [List.flatMap_cons, countNL_append, countNL_append]
    rw [countNL_eq_zero (h l (by simp)), ih (fun x hx => h x (by simp [hx]))]
    rw [show countNL [nl] = 1 from by decide]
    simp
    omega

/-- C1: with a resolved threshold `st`, a line-log call with level above
the threshold writes nothing and one at or below it writes exactly one
line; a blob-log call above threshold writes nothing, and one at or below
threshold with a non-null buffer of length `len` writes exactly
`1 + ceil(len/16)` lines (message line plus dump lines; zero dump lines
when `len = 0` since `(0+15)/16 = 0`). -/
theorem log_line_counts (lv1 st1 lv2 st2 d : Nat) (env : Option (List Char))
    (module file func msg : List Char) (line : Int) (b : List Nat)
    (h1 : st1 < lv1) (h2 : lv2 ≤ st2)
    (hm : nl ∉ module) (hf : nl ∉ file) (hfn : nl ∉ func) (hmsg : nl ∉ msg) :
    (doLog lv1 module d (some st1) env file func line msg).2 = [] ∧
    countNL (doLog lv2 module d (some st2) env file func line msg).2 = 1 ∧
    (doLogBlob lv1 module d (some st1) env file func line (some b) b.length msg).2 = [] ∧
    countNL (doLogBlob lv2 module d (some st2) env file func line
      (some b) b.length msg).2 = 1 + (b.length + 15) / 16 := by
  refine ⟨?_, ?_, ?_, ?_⟩
  · rw [doLog]
    simp [h1]
  · exact countNL_doLog_emitted lv2 st2 d env module file func msg line h2 hm hf hfn hmsg
  · rw [doLogBlob]
    simp [h1]
  · have hstep : (doLogBlob lv2 module d (some st2) env file func line
        (some b) b.length msg).2 =
        (doLog lv2 module d (some st2) env file func line
          (msg.take LOG_MSG_MAX ++ str " (size=" ++ decDigits b.length ++ str "):")).2 ++
        (hexDumpLines b b.length).flatMap (fun l => l ++ [nl]) := by
      rw [doLogBlob]
      simp [Nat.not_lt.mpr h2]
    rw [hstep, countNL_append]
    have hmsg2 : nl ∉ msg.take LOG_MSG_MAX ++ str " (size=" ++
        decDigits b.length ++ str "):" := by
      intro hmem
      simp only [List.mem_append] at hmem
      rcases hmem with ((h | h) | h) | h
      · exact hmsg (List.mem_of_mem_take h)
      · exact absurd h (by decide)
      · exact nl_not_mem_decDigitsF _ _ h
      · exact absurd h (by decide)
    rw [countNL_doLog_emitted lv2 st2 d env module file func _ line h2 hm hf hfn hmsg2]
    have hlines : ∀ l ∈ hexDumpLines b b.length, nl ∉ l := by
      rw [hexDumpLines]
      exact nl_not_mem_hexDumpGoF b.length b b.length 0
    rw [countNL_dump_output (hexDumpLines b b.length) hlines]
    rw [hexDumpLines, length_hexDumpGoF b.length b b.length 0 (Nat.le_refl _)]

/-- Witness for C1 at concrete arguments (threshold 3; level 5 gated,
level 2 enabled; 17-byte blob giving 1 + 2 lines). -/
theorem log_line_counts_witness :
    (doLog 5 (str "log") 4 (some 3) none (str "f.c") (str "fn") 12 (str "hello")).2 = [] ∧
    countNL (doLog 2 (str "log") 4 (some 3) none (str "f.c") (str "fn") 12 (str "hello")).2
      = 1 ∧
    (doLogBlob 5 (str "log") 4 (some 3) none (str "f.c") (str "fn") 12
      (some (List.range 17)) (List.range 17).length (str "hello")).2 = [] ∧
    countNL (doLogBlob 2 (str "log") 4 (some 3) none (str "f.c") (str "fn") 12
      (some (List.range 17)) (List.range 17).length (str "hello")).2
      = 1 + ((List.range 17).length + 15) / 16 :=
  log_line_counts 5 3 2 3 4 none (str "log") (str "f.c") (str "fn") (str "hello") 12
    (List.range 17) (by omega) (by omega) (by decide) (by decide) (by decide) (by decide)

/-- C9: a blob-log call at or below threshold with a NULL buffer emits
exactly one line: the formatted (truncated) message suffixed with
`" (size=N): (null)"`, and no hex dump lines. -/
theorem doLogBlob_null_line (lv st d size : Nat) (env : Option (List Char))
    (module file func msg : List Char) (line : Int)
    (hle : lv ≤ st) (hm : nl ∉ module) (hf : nl ∉ file) (hfn : nl ∉ func)
    (hmsg : nl ∉ msg) :
    (doLogBlob lv module d (some st) env file func line none size msg).2 =
      logHeader lv module file line func ++
        (msg.take LOG_MSG_MAX ++ str " (size=" ++ decDigits size ++ str "): (null)") ++
        [' ', nl] ∧
    countNL (doLogBlob lv module d (some st) env file func line none size msg).2 = 1 := by
  have hstep : (doLogBlob lv module d (some st) env file func line none size msg).2 =
      (doLog lv module d (some st) env file func line
        (msg.take LOG_MSG_MAX ++ str " (size=" ++ decDigits size ++ str "): (null)")).2 := by
    rw [doLogBlob]
    simp [Nat.not_lt.mpr hle]
  constructor
  · rw [hstep, doLog_emits _ _ _ _ _ _ _ _ _ hle]
  · rw [hstep]
    apply countNL_doLog_emitted _ _ _ _ _ _ _ _ _ hle hm hf hfn
    intro hmem
    simp only [List.mem_append] at hmem
    rcases hmem with ((h | h) | h) | h
    · exact hmsg (List.mem_of_mem_take h)
    · exact absurd h (by decide)
    · exact nl_not_mem_decDigitsF _ _ h
    · exact absurd h (by decide)

/-- Witness for C9 at concrete arguments. -/
theorem doLogBlob_null_line_witness :
    (doLogBlob 2 (str "log") 4 (some 3) none (str "f.c") (str "fn") 12 none 7
      (str "buf")).2 =
      logHeader 2 (str "log") (str "f.c") 12 (str "fn") ++
        ((str "buf").take LOG_MSG_MAX ++ str " (size=" ++ decDigits 7 ++
          str "): (null)") ++ [' ', nl] ∧
    countNL (doLogBlob 2 (str "log") 4 (some 3) none (str "f.c") (str "fn") 12 none 7
      (str "buf")).2 = 1 :=
  doLogBlob_null_line 2 3 4 7 none (str "log") (str "f.c") (str "fn") (str "buf") 12
    (by omega) (by decide) (by decide) (by decide) (by decide)

set_option maxRecDepth 4096 in
theorem hexPad2_length : ∀ v, v < 256 → (hexPad 2 v).length = 2 := by decide

theorem flatMap_hexPad2_length (bytes : List Nat) (hb : ∀ v ∈ bytes, v < 256) :
    (bytes.flatMap (hexPad 2)).length = 2 * bytes.length := by
  induction bytes with
  | nil => rfl
  | cons v rest ih =>
    rw [List.flatMap_cons, List.length_append, hexPad2_length v (hb v (by simp)),
      ih (fun x hx => hb x (by simp [hx])), List.length_cons]
    omega

/-- C8: a 17-byte blob produces exactly 2 dump lines: the first has the 16
two-digit byte pairs and its ASCII column right after character 40; the
second has 1 byte pair, 30 padding spaces, and its ASCII column at the
same character 40. -/
theorem hexDump_17 (b : List Nat) (hb : b.length = 17) :
    hexDumpLines b 17 =
      [str "0000: " ++ (lineBytes b 0 16).flatMap (hexPad 2) ++ str "  " ++
        (lineBytes b 0 16).map dumpChar,
       str "0010: " ++ hexPad 2 (byteAt b 16) ++ str "  " ++ List.replicate 30 ' ' ++
        [dumpChar (byteAt b 16)]] ∧
    ((lineBytes b 0 16).flatMap (hexPad 2)).length = 32 ∧
    (str "0000: " ++ (lineBytes b 0 16).flatMap (hexPad 2) ++ str "  ").length = 40 ∧
    (str "0010: " ++ hexPad 2 (byteAt b 16) ++ str "  " ++
      List.replicate 30 ' ').length = 40 := by
  have hfl : ((lineBytes b 0 16).flatMap (hexPad 2)).length = 32 := by
    rw [flatMap_hexPad2_length _ (lineBytes_lt b 0 16)]
    rw [show (lineBytes b 0 16).length = 16 from by simp [lineBytes]]
  have hp2 : (hexPad 2 (byteAt b 16)).length = 2 := hexPad2_length _ (byteAt_lt b 16)
  refine ⟨?_, hfl, ?_, ?_⟩
  · have h0 : hexDumpLines b 17 =
        [dumpLine 0 (lineBytes b 0 16), dumpLine 16 (lineBytes b 16 1)] := rfl
    rw [h0]
    have hline1 : dumpLine 0 (lineBytes b 0 16) =
        str "0000: " ++ (lineBytes b 0 16).flatMap (hexPad 2) ++ str "  " ++
          (lineBytes b 0 16).map dumpChar := by
      rw [dumpLine, show (lineBytes b 0 16).length = 16 from by simp [lineBytes]]
      rw [show (16 * 2 + 8 - (8 + 2 * 16) : Nat) = 0 from by norm_num]
      rw [List.replicate_zero, List.append_nil]
      rw [show hexPad 4 0 = str "0000" from by decide]
      rw [show str "0000" ++ str ": " = str "0000: " from by decide]
    have hlb1 : lineBytes b 16 1 = [byteAt b 16] := rfl
    have hline2 : dumpLine 16 (lineBytes b 16 1) =
        str "0010: " ++ hexPad 2 (byteAt b 16) ++ str "  " ++ List.replicate 30 ' ' ++
          [dumpChar (byteAt b 16)] := by
      rw [hlb1, dumpLine]
      rw [show ([byteAt b 16] : List Nat).length = 1 from rfl]
      rw [show (16 * 2 + 8 - (8 + 2 * 1) : Nat) = 30 from by norm_num]
      rw [show ([byteAt b 16] : List Nat).flatMap (hexPad 2) = hexPad 2 (byteAt b 16) from by
        simp]
      rw [show ([byteAt b 16] : List Nat).map dumpChar = [dumpChar (byteAt b 16)] from by simp]
      rw [show hexPad 4 16 = str "0010" from by decide]
      rw [show str "0010" ++ str ": " = str "0010: " from by decide]
    rw [hline1, hline2]
  · rw [List.length_append, List.length_append, hfl]
    rfl
  · rw [List.length_append, List.length_append, List.length_append, hp2]
    rfl

/-- Witness for C8 at the concrete 17-byte blob `0,1,...,16`. -/
theorem hexDump_17_witness :
    hexDumpLines (List.range 17) 17 =
      [str "0000: " ++ (lineBytes (List.range 17) 0 16).flatMap (hexPad 2) ++ str "  " ++
        (lineBytes (List.range 17) 0 16).map dumpChar,
       str "0010: " ++ hexPad 2 (byteAt (List.range 17) 16) ++ str "  " ++
        List.replicate 30 ' ' ++ [dumpChar (byteAt (List.range 17) 16)]] ∧
    ((lineBytes (List.range 17) 0 16).flatMap (hexPad 2)).length = 32 ∧
    (str "0000: " ++ (lineBytes (List.range 17) 0 16).flatMap (hexPad 2) ++
      str "  ").length = 40 ∧
    (str "0010: " ++ hexPad 2 (byteAt (List.range 17) 16) ++ str "  " ++
      List.replicate 30 ' ').length = 40 :=
  hexDump_17 (List.range 17) (by decide)

/-- C4: the destination is resolved once — with a cache present any later
call returns the same handle untouched, reading neither the environment
nor the open oracle — and the first resolution maps: variable absent or
case-insensitively `stderr` to standard error, `-` or case-insensitively
`stdout` to standard output, and any other value to a file opened in
append mode; if the open fails the destination is standard error and a
diagnostic naming the path and the OS error is printed to standard
error. -/
theorem getLogFile_spec
    (f : LogDest) (envA : Option (List Char)) (coA : List Char → Bool) (errA : List Char)
    (co : List Char → Bool) (err : List Char)
    (p1 p2 p3 p4 : List Char) (co3 co4 : List Char → Bool) (err3 err4 : List Char)
    (hp1 : noNul p1) (h1 : lowList p1 = lowList (str "stderr"))
    (hp2 : noNul p2) (h2 : p2 = str "-" ∨ lowList p2 = lowList (str "stdout"))
    (hp3 : noNul p3) (h3a : lowList p3 ≠ lowList (str "stderr"))
    (h3b : p3 ≠ str "-") (h3c : lowList p3 ≠ lowList (str "stdout"))
    (h3 : co3 p3 = true)
    (hp4 : noNul p4) (h4a : lowList p4 ≠ lowList (str "stderr"))
    (h4b : p4 ≠ str "-") (h4c : lowList p4 ≠ lowList (str "stdout"))
    (h4 : co4 p4 = false) :
    getLogFile envA coA errA (some f) = (f, some f, []) ∧
    getLogFile none co err none = (LogDest.stdErr, some LogDest.stdErr, []) ∧
    getLogFile (some p1) co err none = (LogDest.stdErr, some LogDest.stdErr, []) ∧
    getLogFile (some p2) co err none = (LogDest.stdOut, some LogDest.stdOut, []) ∧
    getLogFile (some p3) co3 err3 none =
      (LogDest.fileHandle p3, some (LogDest.fileHandle p3), []) ∧
    getLogFile (some p4) co4 err4 none = (LogDest.stdErr, some LogDest.stdErr,
      str "Failed to open logging file " ++ p4 ++ str ": " ++ err4 ++ [nl]) := by
  have hiffErr : ∀ (p : List Char), noNul p →
      (case_insensitive_strncmp p (str "stderr") 7 = 0 ↔
        lowList p = lowList (str "stderr")) :=
    fun p hp => ci_strncmp_eq_zero_iff_full hp (by decide) (by decide)
  have hiffOut : ∀ (p : List Char), noNul p →
      (case_insensitive_strncmp p (str "stdout") 7 = 0 ↔
        lowList p = lowList (str "stdout")) :=
    fun p hp => ci_strncmp_eq_zero_iff_full hp (by decide) (by decide)
  refine ⟨rfl, rfl, ?_, ?_, ?_, ?_⟩
  · rw [getLogFile]
    rw [if_pos ((hiffErr p1 hp1).mpr h1)]
  · have hne : case_insensitive_strncmp p2 (str "stderr") 7 ≠ 0 := by
      intro hc
      have hcl := (hiffErr p2 hp2).mp hc
      rcases h2 with h | h
      · subst h; exact absurd hcl (by decide)
      · rw [h] at hcl; exact absurd hcl (by decide)
    rw [getLogFile, if_neg hne]
    rw [if_pos (show p2 = str "-" ∨ case_insensitive_strncmp p2 (str "stdout") 7 = 0 from by
      rcases h2 with h | h
      · exact Or.inl h
      · exact Or.inr ((hiffOut p2 hp2).mpr h))]
  · have hne1 : case_insensitive_strncmp p3 (str "stderr") 7 ≠ 0 :=
      fun hc => h3a ((hiffErr p3 hp3).mp hc)
    have hne2 : ¬ (p3 = str "-" ∨ case_insensitive_strncmp p3 (str "stdout") 7 = 0) := by
      intro h
      rcases h with h | h
      · exact h3b h
      · exact h3c ((hiffOut p3 hp3).mp h)
    rw [getLogFile, if_neg hne1, if_neg hne2, if_pos h3]
  · have hne1 : case_insensitive_strncmp p4 (str "stderr") 7 ≠ 0 :=
      fun hc => h4a ((hiffErr p4 hp4).mp hc)
    have hne2 : ¬ (p4 = str "-" ∨ case_insensitive_strncmp p4 (str "stdout") 7 = 0) := by
      intro h
      rcases h with h | h
      · exact h4b h
      · exact h4c ((hiffOut p4 hp4).mp h)
    rw [getLogFile, if_neg hne1, if_neg hne2, if_neg (by simp [h4])]

/-- Witness for C4: cached reuse, and the four first-resolution branches at
concrete inputs. -/
theorem getLogFile_spec_witness :
    getLogFile (some (str "x")) (fun _ => true) (str "e") (some LogDest.stdOut) =
      (LogDest.stdOut, some LogDest.stdOut, []) ∧
    getLogFile none (fun _ => true) (str "e") none =
      (LogDest.stdErr, some LogDest.stdErr, []) ∧
    getLogFile (some (str "STDERR")) (fun _ => true) (str "e") none =
      (LogDest.stdErr, some LogDest.stdErr, []) ∧
    getLogFile (some (str "-")) (fun _ => true) (str "e") none =
      (LogDest.stdOut, some LogDest.stdOut, []) ∧
    getLogFile (some (str "log.txt")) (fun _ => true) (str "e3") none =
      (LogDest.fileHandle (str "log.txt"), some (LogDest.fileHandle (str "log.txt")), []) ∧
    getLogFile (some (str "log.txt")) (fun _ => false) (str "boom") none =
      (LogDest.stdErr, some LogDest.stdErr,
        str "Failed to open logging file " ++ str "log.txt" ++ str ": " ++ str "boom" ++ [nl]) :=
  getLogFile_spec LogDest.stdOut (some (str "x")) (fun _ => true) (str "e")
    (fun _ => true) (str "e") (str "STDERR") (str "-") (str "log.txt") (str "log.txt")
    (fun _ => true) (fun _ => false) (str "e3") (str "boom")
    (by decide) (by decide) (by decide) (by decide) (by decide) (by decide) (by decide)
    (by decide) (by decide) (by decide) (by decide) (by decide) (by decide) (by decide)

end Log
